import Mathlib

/-!
# Middlengine: a middleware engine for chaining HTTP handlers

Shallow embedding of `main.go` (package `middlengine`).

Go values are modelled as follows.

* The mutable world reachable by handlers and wrappers (response writers, logs,
  traces) is a value of a type `σ`; running Go code is a function from the world
  before to the world after, together with the panic that ended it, if any.
* `http.ResponseWriter` values are elements of a type `W`, `*http.Request`
  values elements of a type `R`.
* A value of the interface type `http.Handler` is `none` (the nil interface) or
  `some h` with `h` an implementation of `ServeHTTP`.
* A value of the func type `Middleware` is `none` (the nil func) or `some f`
  with `f` a function that receives a handler value and the world, and gives
  back the world together with either the handler it returns or the panic it
  raised.
-/

namespace Middlengine

/-- Panics that can end a call. -/
inductive Fault where
  /-- The panic raised by `CreateChain` itself:
  "base handler is nil: set a valid http.Handler before creating the middleware chain". -/
  | baseHandlerNil
  /-- Go run-time error: invalid memory address or nil pointer dereference
  (method call on a nil interface, call of a nil func). -/
  | nilDereference
  /-- Go run-time error: index out of range. -/
  | indexOutOfRange
  /-- Any panic raised inside a handler or a wrapper supplied by the caller. -/
  | raised (msg : String)
  deriving DecidableEq, Repr

/-- A non-nil implementation of Go's `http.Handler`: the single method
`ServeHTTP(w, r)`, which transforms the world and may end in a panic. -/
structure http.Handler (σ W R : Type) where
  ServeHTTP : W → R → σ → Option Fault × σ

/-- The method call `h.ServeHTTP(w, r)` on a value `h` of interface type
`http.Handler`: on the nil interface it is a nil dereference. -/
def http.serve {σ W R : Type} (h : Option (http.Handler σ W R)) (w : W) (r : R) (s : σ) :
    Option Fault × σ :=
  match h with
  | none => (some Fault.nilDereference, s)
  | some g => g.ServeHTTP w r s

/-- The Go type `type Middleware func(http.Handler) http.Handler`: a value is `none`,
the nil func, or `some f`, where a call of `f` receives a handler value (possibly nil)
and the world, and yields the world after the call together with the returned handler
value or the panic raised. -/
abbrev Middleware (σ W R : Type) : Type :=
  Option (Option (http.Handler σ W R) → σ → Except Fault (Option (http.Handler σ W R)) × σ)

/-- The nil func value of type `Middleware`. -/
def Middleware.nil {σ W R : Type} : Middleware σ W R :=
  none

/-- The call `m(h)` of a value `m` of func type `Middleware`: on the nil func it is a
nil dereference raised at the call, with no wrapper code run and the world unchanged. -/
def Middleware.call {σ W R : Type} (m : Middleware σ W R) (h : Option (http.Handler σ W R))
    (s : σ) : Except Fault (Option (http.Handler σ W R)) × σ :=
  match m with
  | none => (Except.error Fault.nilDereference, s)
  | some f => f h s

/-- A wrapper that is a pure total function on handler values: it returns without
touching the world and without panicking. -/
def Middleware.pure {σ W R : Type}
    (f : Option (http.Handler σ W R) → Option (http.Handler σ W R)) : Middleware σ W R :=
  some fun h s => (Except.ok (f h), s)

/-- A wrapper is total when every call of it returns (it never panics). -/
def Middleware.Total {σ W R : Type} (m : Middleware σ W R) : Prop :=
  ∀ h s, ∃ h1, (Middleware.call m h s).1 = Except.ok h1

/-- The Go struct `Engine`. -/
structure Engine (σ W R : Type) where
  /-- Field `Handler http.Handler`. -/
  Handler : Option (http.Handler σ W R)
  /-- Field `Middlewares []Middleware`. -/
  Middlewares : List (Middleware σ W R)

/-- Go: `func NewEngine(handler http.Handler) *Engine { return &Engine{Handler: handler} }`.
The omitted field `Middlewares` is the nil slice, i.e. the empty list. -/
def NewEngine {σ W R : Type} (handler : Option (http.Handler σ W R)) : Engine σ W R :=
  { Handler := handler, Middlewares := [] }

/-- Go: `func (e *Engine) Use(middleware Middleware)`, whose body is
`e.Middlewares = append(e.Middlewares, middleware)`. The result is the engine after
the call. -/
def Engine.Use {σ W R : Type} (e : Engine σ W R) (middleware : Middleware σ W R) :
    Engine σ W R :=
  { e with Middlewares := e.Middlewares ++ [middleware] }

/-- The loop of `CreateChain`:
`for i := len(e.Middlewares) - 1; i >= 0; i-- { e.Handler = e.Middlewares[i](e.Handler) }`.
The first argument is `i + 1`, so `0` is the exit `i = -1`. The result is the panic
that ended the loop (if any), the engine and the world at that point. -/
def Engine.CreateChain.loop {σ W R : Type} :
    Nat → Engine σ W R → σ → Option Fault × Engine σ W R × σ
  | 0, e, s => (none, e, s)
  | i + 1, e, s =>
    match e.Middlewares[i]? with
    | none => (some Fault.indexOutOfRange, e, s)
    | some m =>
      match Middleware.call m e.Handler s with
      | (Except.error f, s1) => (some f, e, s1)
      | (Except.ok h, s1) => Engine.CreateChain.loop i { e with Handler := h } s1

/-- Go: `func (e *Engine) CreateChain()`. The result is the panic that ended the call
(if any), the engine and the world at that point. -/
def Engine.CreateChain {σ W R : Type} (e : Engine σ W R) (s : σ) :
    Option Fault × Engine σ W R × σ :=
  match e.Handler with
  | none => (some Fault.baseHandlerNil, e, s)
  | some _ => Engine.CreateChain.loop e.Middlewares.length e s

/-- Go: `func (e *Engine) ServeHTTP(w http.ResponseWriter, r *http.Request)`, whose body
is `e.Handler.ServeHTTP(w, r)`. -/
def Engine.ServeHTTP {σ W R : Type} (e : Engine σ W R) (w : W) (r : R) (s : σ) :
    Option Fault × σ :=
  http.serve e.Handler w r s

/-- The Go expression `w1(w2(...wn(h)...))` for the wrapper list `[w1, ..., wn]`,
written by hand: the innermost call `wn(h)` is evaluated first, and a panic in any
call ends the evaluation. -/
def nest {σ W R : Type} :
    List (Middleware σ W R) → Option (http.Handler σ W R) → σ →
      Except Fault (Option (http.Handler σ W R)) × σ
  | [], h, s => (Except.ok h, s)
  | w :: ws, h, s =>
    match nest ws h s with
    | (Except.error f, s1) => (Except.error f, s1)
    | (Except.ok h1, s1) => Middleware.call w h1 s1

/-- The panic, if any, of an evaluation that yields a value or a panic. -/
def faultOf {α : Type} : Except Fault α → Option Fault
  | Except.error f => some f
  | Except.ok _ => none

/-- An engine built the way callers build it: `NewEngine(handler)` followed by one
`Use` call for each wrapper of `ws`, in list order. -/
def build {σ W R : Type} (handler : Option (http.Handler σ W R))
    (ws : List (Middleware σ W R)) : Engine σ W R :=
  ws.foldl Engine.Use (NewEngine handler)

/-- The handler a tracing wrapper returns for the inner handler `next`: it appends
`before` to the trace, calls `next`, and, once that call has returned, appends `after`;
a panic of the inner call propagates. -/
def traceHandler {μ W R : Type} (before after : μ) (next : Option (http.Handler (List μ) W R)) :
    http.Handler (List μ) W R :=
  { ServeHTTP := fun w r t =>
      match http.serve next w r (t ++ [before]) with
      | (some f, t1) => (some f, t1)
      | (none, t1) => (none, t1 ++ [after]) }

/-- A wrapper as in the ordering tests: it returns `traceHandler before after next` for
the handler `next` it receives. -/
def traceWrapper {μ W R : Type} (before after : μ) : Middleware (List μ) W R :=
  Middleware.pure fun next => some (traceHandler before after next)

/-- A base handler that appends the markers `hs` to the trace and returns. -/
def appendHandler {μ W R : Type} (hs : List μ) : http.Handler (List μ) W R :=
  { ServeHTTP := fun _ _ t => (none, t ++ hs) }

/-- The function behind a wrapper that returns the nil handler whatever it receives. -/
def returnNil {σ W R : Type} : Option (http.Handler σ W R) → Option (http.Handler σ W R) :=
  fun _ => none

/-- A wrapper never returns nil when every call of it that returns yields a non-nil
handler. -/
def Middleware.NeverNil {σ W R : Type} (m : Middleware σ W R) : Prop :=
  ∀ h s h1, (Middleware.call m h s).1 = Except.ok h1 → h1 ≠ none

/-- The handler an emitting wrapper returns for the inner handler `next`: it appends
`x` to the world, a list of events, and then calls `next`. -/
def emitHandler {μ W R : Type} (x : μ) (next : Option (http.Handler (List μ) W R)) :
    http.Handler (List μ) W R :=
  { ServeHTTP := fun w r t => http.serve next w r (t ++ [x]) }

/-- A wrapper that returns `emitHandler x next` for the handler `next` it receives. -/
def emitWrapper {μ W R : Type} (x : μ) : Middleware (List μ) W R :=
  Middleware.pure fun next => some (emitHandler x next)

/-- A call made on an `http.ResponseWriter`: `w.Header().Set(key, value)`,
`w.WriteHeader(status)` or `w.Write(body)`. -/
inductive WriterCall where
  | setHeader (key value : String)
  | writeHeader (status : Nat)
  | write (body : String)
  deriving DecidableEq, Repr

/-- The status of the response a list of writer calls produces: the status of the first
`WriteHeader`, or 200 when a `Write` comes first or the handler returns without
writing. -/
def statusOf : List WriterCall → Option Nat
  | [] => some 200
  | WriterCall.writeHeader c :: _ => some c
  | WriterCall.write _ :: _ => some 200
  | WriterCall.setHeader _ _ :: cs => statusOf cs

/-- The body of the response a list of writer calls produces: what the `Write` calls
wrote, in order. -/
def bodyOf : List WriterCall → String
  | [] => ""
  | WriterCall.write b :: cs => b ++ bodyOf cs
  | _ :: cs => bodyOf cs

/-- The value of header `k` in the response a list of writer calls produces: the value of
the last `Set` of `k` made before the headers are sent by `WriteHeader` or `Write`. The
second argument is the value set so far. Keys are compared as written, so `k` and the
keys set are taken in the canonical form `Set` gives them (as `X` and `Y` are). -/
def headerOf (k : String) : Option String → List WriterCall → Option String
  | v, [] => v
  | v, WriterCall.setHeader key value :: cs =>
    if key = k then headerOf k (some value) cs else headerOf k v cs
  | v, _ :: _ => v

/-- The base handler of the header scenario: it writes status 200 and the body "OK". -/
def okHandler {W R : Type} : http.Handler (List WriterCall) W R :=
  { ServeHTTP := fun _ _ t => (none, t ++ [WriterCall.writeHeader 200, WriterCall.write "OK"]) }

/-- A wrapper of the header scenario: the handler it returns sets header `k` to `v` and
then calls its inner handler. -/
def headerWrapper {W R : Type} (k v : String) : Middleware (List WriterCall) W R :=
  emitWrapper (WriterCall.setHeader k v)

/-- A wrapper instrumented to record its calls: it behaves as the function `f` on
handlers and appends to the world, a log of calls, its index `i` together with the
observation `obs` of the handler it received. -/
def logCall {α W R : Type}
    (obs : Option (http.Handler (List (Nat × α)) W R) → α) (i : Nat)
    (f : Option (http.Handler (List (Nat × α)) W R) →
      Option (http.Handler (List (Nat × α)) W R)) :
    Middleware (List (Nat × α)) W R :=
  some fun h log => (Except.ok (f h), log ++ [(i, obs h)])

/-- The wrapper list `[f_k, f_(k+1), ...]` with every wrapper instrumented by `logCall`
under its index, the first one having index `k`. -/
def logAll {α W R : Type}
    (obs : Option (http.Handler (List (Nat × α)) W R) → α) :
    Nat →
    List (Option (http.Handler (List (Nat × α)) W R) →
      Option (http.Handler (List (Nat × α)) W R)) →
    List (Middleware (List (Nat × α)) W R)
  | _, [] => []
  | k, f :: fs => logCall obs k f :: logAll obs (k + 1) fs

/-- The calls the nesting order prescribes for the wrapper list `[f_k, f_(k+1), ...]` over
the handler `h`: the last wrapper is called first, on `h`, and every other wrapper is
called once, after the wrappers behind it, on the handler the previous call returned. -/
def expectedCalls {α W R : Type}
    (obs : Option (http.Handler (List (Nat × α)) W R) → α) :
    Nat →
    List (Option (http.Handler (List (Nat × α)) W R) →
      Option (http.Handler (List (Nat × α)) W R)) →
    Option (http.Handler (List (Nat × α)) W R) → List (Nat × α)
  | _, [], _ => []
  | k, _ :: fs, h =>
    expectedCalls obs (k + 1) fs h ++ [(k, obs (fs.foldr (fun f a => f a) h))]

/-- A wrapper whose code panics with the message `msg` whenever it is called, leaving
the world as it was. -/
def panicWrapper {σ W R : Type} (msg : String) : Middleware σ W R :=
  some fun _ s => (Except.error (Fault.raised msg), s)

/-- The engine of the header scenario: base handler `okHandler`, wrapper A setting
header X to 1 registered first, wrapper B setting header Y to 2 registered second. -/
def scenarioEngine {W R : Type} : Engine (List WriterCall) W R :=
  build (some okHandler) [headerWrapper "X" "1", headerWrapper "Y" "2"]

/-! ## Auxiliary lemmas -/

theorem foldl_Use {σ W R : Type} (ws : List (Middleware σ W R)) (e : Engine σ W R) :
    ws.foldl Engine.Use e = { Handler := e.Handler, Middlewares := e.Middlewares ++ ws } := by
  induction ws generalizing e with
  | nil => simp
  | cons w ws ih => simp [List.foldl_cons, ih, Engine.Use]

theorem build_eq {σ W R : Type} (handler : Option (http.Handler σ W R))
    (ws : List (Middleware σ W R)) :
    build handler ws = { Handler := handler, Middlewares := ws } := by
  simp [build, foldl_Use, NewEngine]

theorem nest_concat {σ W R : Type} (ws : List (Middleware σ W R)) (m : Middleware σ W R)
    (h : Option (http.Handler σ W R)) (s : σ) :
    nest (ws ++ [m]) h s =
      match Middleware.call m h s with
      | (Except.error f, s1) => (Except.error f, s1)
      | (Except.ok h1, s1) => nest ws h1 s1 := by
  induction ws with
  | nil =>
    simp only [List.nil_append, nest]
    rcases hm : Middleware.call m h s with ⟨_ | _, s1⟩ <;> simp
  | cons w ws ih =>
    simp only [List.cons_append, nest, List.append_eq]
    rw [ih]
    rcases hm : Middleware.call m h s with ⟨_ | _, s1⟩ <;> simp

theorem loop_ok {σ W R : Type} (ms : List (Middleware σ W R)) :
    ∀ (n : Nat), n ≤ ms.length → ∀ (h h1 : Option (http.Handler σ W R)) (s s1 : σ),
      nest (ms.take n) h s = (Except.ok h1, s1) →
      Engine.CreateChain.loop n { Handler := h, Middlewares := ms } s =
        (none, { Handler := h1, Middlewares := ms }, s1) := by
  intro n
  induction n with
  | zero =>
    intro _ h h1 s s1 hn
    simp only [List.take_zero, nest, Prod.mk.injEq, Except.ok.injEq] at hn
    simp [Engine.CreateChain.loop, hn.1, hn.2]
  | succ n ih =>
    intro hlen h h1 s s1 hn
    have hlt : n < ms.length := hlen
    have htake : ms.take (n + 1) = ms.take n ++ [ms[n]] := by
      rw [← List.take_concat_get ms n hlt, List.concat_eq_append]
    rw [htake, nest_concat] at hn
    simp only [Engine.CreateChain.loop, List.getElem?_eq_getElem hlt]
    rcases hm : Middleware.call ms[n] h s with ⟨f | h2, s2⟩
    · rw [hm] at hn
      simp at hn
    · rw [hm] at hn
      simp only at hn
      exact ih (Nat.le_of_lt hlt) h2 h1 s2 s1 hn

theorem loop_error {σ W R : Type} (ms : List (Middleware σ W R)) :
    ∀ (n : Nat), n ≤ ms.length → ∀ (h : Option (http.Handler σ W R)) (s s1 : σ) (f : Fault),
      nest (ms.take n) h s = (Except.error f, s1) →
      (Engine.CreateChain.loop n { Handler := h, Middlewares := ms } s).1 = some f ∧
      (Engine.CreateChain.loop n { Handler := h, Middlewares := ms } s).2.1.Middlewares = ms ∧
      (Engine.CreateChain.loop n { Handler := h, Middlewares := ms } s).2.2 = s1 := by
  intro n
  induction n with
  | zero =>
    intro _ h s s1 f hn
    simp [nest] at hn
  | succ n ih =>
    intro hlen h s s1 f hn
    have hlt : n < ms.length := hlen
    have htake : ms.take (n + 1) = ms.take n ++ [ms[n]] := by
      rw [← List.take_concat_get ms n hlt, List.concat_eq_append]
    rw [htake, nest_concat] at hn
    simp only [Engine.CreateChain.loop, List.getElem?_eq_getElem hlt]
    rcases hm : Middleware.call ms[n] h s with ⟨g | h2, s2⟩
    · rw [hm] at hn
      simp only [Prod.mk.injEq, Except.error.injEq] at hn
      simp [hn.1, hn.2]
    · rw [hm] at hn
      simp only at hn
      exact ih (Nat.le_of_lt hlt) h2 s2 s1 f hn

theorem CreateChain_ok {σ W R : Type} (H : http.Handler σ W R)
    (ms : List (Middleware σ W R)) (s s1 : σ) (h1 : Option (http.Handler σ W R))
    (hn : nest ms (some H) s = (Except.ok h1, s1)) :
    Engine.CreateChain { Handler := some H, Middlewares := ms } s =
      (none, { Handler := h1, Middlewares := ms }, s1) := by
  simp only [Engine.CreateChain]
  exact loop_ok ms ms.length (Nat.le_refl _) (some H) h1 s s1 (by rw [List.take_length]; exact hn)

theorem CreateChain_error {σ W R : Type} (H : http.Handler σ W R)
    (ms : List (Middleware σ W R)) (s s1 : σ) (f : Fault)
    (hn : nest ms (some H) s = (Except.error f, s1)) :
    (Engine.CreateChain { Handler := some H, Middlewares := ms } s).1 = some f ∧
    (Engine.CreateChain { Handler := some H, Middlewares := ms } s).2.1.Middlewares = ms ∧
    (Engine.CreateChain { Handler := some H, Middlewares := ms } s).2.2 = s1 := by
  simp only [Engine.CreateChain]
  exact loop_error ms ms.length (Nat.le_refl _) (some H) s s1 f
    (by rw [List.take_length]; exact hn)

theorem nest_pure {σ W R : Type}
    (fs : List (Option (http.Handler σ W R) → Option (http.Handler σ W R)))
    (h : Option (http.Handler σ W R)) (s : σ) :
    nest (fs.map Middleware.pure) h s = (Except.ok (fs.foldr (fun f a => f a) h), s) := by
  induction fs with
  | nil => rfl
  | cons f fs ih => simp [nest, ih, Middleware.pure, Middleware.call]

theorem nest_total {σ W R : Type} (ms : List (Middleware σ W R))
    (hms : ∀ m ∈ ms, Middleware.Total m) (h : Option (http.Handler σ W R)) (s : σ) :
    ∃ h1 s1, nest ms h s = (Except.ok h1, s1) := by
  induction ms with
  | nil => exact ⟨h, s, rfl⟩
  | cons m ms ih =>
    obtain ⟨h1, s1, hn⟩ := ih (fun x hx => hms x (List.mem_cons_of_mem _ hx))
    obtain ⟨h2, hm⟩ := hms m (List.mem_cons_self _ _) h1 s1
    refine ⟨h2, (Middleware.call m h1 s1).2, ?_⟩
    simp only [nest, hn]
    exact Prod.ext hm rfl

theorem pure_total {σ W R : Type}
    (f : Option (http.Handler σ W R) → Option (http.Handler σ W R)) :
    Middleware.Total (Middleware.pure f) :=
  fun h _ => ⟨f h, rfl⟩

theorem loop_Middlewares {σ W R : Type} :
    ∀ (n : Nat) (e : Engine σ W R) (s : σ),
      (Engine.CreateChain.loop n e s).2.1.Middlewares = e.Middlewares := by
  intro n
  induction n with
  | zero => intro e s; rfl
  | succ n ih =>
    intro e s
    rcases hi : e.Middlewares[n]? with _ | m
    · simp [Engine.CreateChain.loop, hi]
    · rcases hm : Middleware.call m e.Handler s with ⟨f | h, s1⟩
      · simp [Engine.CreateChain.loop, hi, hm]
      · simp [Engine.CreateChain.loop, hi, hm, ih]

theorem loop_frame {σ W R : Type} (ms xs : List (Middleware σ W R)) :
    ∀ (n : Nat), n ≤ ms.length → ∀ (h : Option (http.Handler σ W R)) (s : σ),
      (Engine.CreateChain.loop n { Handler := h, Middlewares := ms ++ xs } s).1 =
        (Engine.CreateChain.loop n { Handler := h, Middlewares := ms } s).1 ∧
      (Engine.CreateChain.loop n { Handler := h, Middlewares := ms ++ xs } s).2.1.Handler =
        (Engine.CreateChain.loop n { Handler := h, Middlewares := ms } s).2.1.Handler ∧
      (Engine.CreateChain.loop n { Handler := h, Middlewares := ms ++ xs } s).2.2 =
        (Engine.CreateChain.loop n { Handler := h, Middlewares := ms } s).2.2 := by
  intro n
  induction n with
  | zero => intro _ h s; exact ⟨rfl, rfl, rfl⟩
  | succ n ih =>
    intro hlen h s
    have hlt : n < ms.length := hlen
    have hx : (ms ++ xs)[n]? = some ms[n] := by
      rw [List.getElem?_append_left hlt, List.getElem?_eq_getElem hlt]
    simp only [Engine.CreateChain.loop, hx, List.getElem?_eq_getElem hlt]
    rcases hm : Middleware.call ms[n] h s with ⟨f | h2, s2⟩
    · exact ⟨rfl, rfl, rfl⟩
    · exact ih (Nat.le_of_lt hlt) h2 s2

theorem nest_of_CreateChain {σ W R : Type} (H : http.Handler σ W R)
    (ms : List (Middleware σ W R)) (s s1 : σ) (e1 : Engine σ W R)
    (hc : Engine.CreateChain { Handler := some H, Middlewares := ms } s = (none, e1, s1)) :
    nest ms (some H) s = (Except.ok e1.Handler, s1) ∧ e1.Middlewares = ms := by
  rcases hn : nest ms (some H) s with ⟨f | h1, s2⟩
  · have h := (CreateChain_error H ms s s2 f hn).1
    rw [hc] at h
    simp at h
  · rw [CreateChain_ok H ms s s2 h1 hn] at hc
    simp only [Prod.mk.injEq, true_and] at hc
    obtain ⟨he, hs⟩ := hc
    subst he
    subst hs
    exact ⟨rfl, rfl⟩

/-! ## Composition -/

/-- C1: for a non-nil base handler `H` and wrappers registered with `Use` in list order
on `NewEngine(H)`, `CreateChain` returns with `Handler` equal to the hand-written nesting
`w1(w2(...wn(H)...))`, so `ServeHTTP` on the engine does what the nested handler does.
First part: wrappers that are functions on handlers, where the nesting is the right fold
of the list over `H`. Second part: wrappers with effects and panics, where `CreateChain`
ends with the same panic (or none) and the same world as evaluating the nesting by hand
and, when that evaluation returns a handler, with that handler as `Handler`. -/
theorem CreateChain_eq_nested {σ W R : Type} (H : http.Handler σ W R) :
    (∀ (fs : List (Option (http.Handler σ W R) → Option (http.Handler σ W R))) (s : σ),
      Engine.CreateChain (build (some H) (fs.map Middleware.pure)) s =
        (none, { Handler := fs.foldr (fun f h => f h) (some H),
                 Middlewares := fs.map Middleware.pure }, s) ∧
      ∀ (w : W) (r : R) (t : σ),
        Engine.ServeHTTP
            (Engine.CreateChain (build (some H) (fs.map Middleware.pure)) s).2.1 w r t =
          http.serve (fs.foldr (fun f h => f h) (some H)) w r t) ∧
    (∀ (ws : List (Middleware σ W R)) (s : σ),
      (Engine.CreateChain (build (some H) ws) s).1 = faultOf (nest ws (some H) s).1 ∧
      (Engine.CreateChain (build (some H) ws) s).2.2 = (nest ws (some H) s).2 ∧
      (Engine.CreateChain (build (some H) ws) s).2.1.Middlewares = ws ∧
      match (nest ws (some H) s).1 with
      | Except.error _ => True
      | Except.ok h1 =>
        (Engine.CreateChain (build (some H) ws) s).2.1.Handler = h1 ∧
        ∀ (w : W) (r : R) (t : σ),
          Engine.ServeHTTP (Engine.CreateChain (build (some H) ws) s).2.1 w r t =
            http.serve h1 w r t) := by
  refine ⟨fun fs s => ?_, fun ws s => ?_⟩
  · have hc := CreateChain_ok H (fs.map Middleware.pure) s s _ (nest_pure fs (some H) s)
    rw [build_eq, hc]
    exact ⟨rfl, fun _ _ _ => rfl⟩
  · rw [build_eq]
    rcases hn : nest ws (some H) s with ⟨f | h1, s1⟩
    · obtain ⟨h1, h2, h3⟩ := CreateChain_error H ws s s1 f hn
      exact ⟨h1, h3, h2, trivial⟩
    · rw [CreateChain_ok H ws s s1 h1 hn]
      exact ⟨rfl, rfl, rfl, rfl, fun _ _ _ => rfl⟩

/-- C2: `CreateChain` called with a nil `Handler` panics with its own panic and leaves
the engine (`Handler` still nil, `Middlewares`) and the world as they were, whatever the
registered wrappers would do when called, so none of them has been called; when every
registered wrapper is total, `CreateChain` panics if and only if `Handler` is nil; and
with a non-nil `Handler` and total wrappers it returns, for a list of any length. -/
theorem CreateChain_panics_iff_nil {σ W R : Type} :
    (∀ (ms : List (Middleware σ W R)) (s : σ),
      Engine.CreateChain { Handler := none, Middlewares := ms } s =
        (some Fault.baseHandlerNil, { Handler := none, Middlewares := ms }, s)) ∧
    (∀ (e : Engine σ W R) (s : σ), (∀ m ∈ e.Middlewares, Middleware.Total m) →
      ((Engine.CreateChain e s).1 ≠ none ↔ e.Handler = none)) ∧
    (∀ (H : http.Handler σ W R) (ms : List (Middleware σ W R)) (s : σ),
      (∀ m ∈ ms, Middleware.Total m) →
      (Engine.CreateChain { Handler := some H, Middlewares := ms } s).1 = none) := by
  have h3 : ∀ (H : http.Handler σ W R) (ms : List (Middleware σ W R)) (s : σ),
      (∀ m ∈ ms, Middleware.Total m) →
      (Engine.CreateChain { Handler := some H, Middlewares := ms } s).1 = none := by
    intro H ms s hms
    obtain ⟨h1, s1, hn⟩ := nest_total ms hms (some H) s
    rw [CreateChain_ok H ms s s1 h1 hn]
  refine ⟨fun ms s => rfl, fun e s hms => ?_, h3⟩
  obtain ⟨h, ms⟩ := e
  cases h with
  | none => simp [Engine.CreateChain]
  | some H => simp [h3 H ms s hms]

/-- Witness for C2: an engine with a nil handler and one wrapper, and an engine with a
non-nil handler and two total wrappers. -/
theorem CreateChain_panics_iff_nil_witness :
    (Engine.CreateChain
        ({ Handler := none, Middlewares := [Middleware.pure id] } : Engine Unit Unit Unit) ()).1
      = some Fault.baseHandlerNil ∧
    (Engine.CreateChain
        ({ Handler := some (appendHandler []),
           Middlewares := [traceWrapper 1 2, Middleware.pure id] } :
          Engine (List Nat) Unit Unit) []).1 = none :=
  ⟨congrArg Prod.fst (CreateChain_panics_iff_nil.1 [Middleware.pure id] ()),
   CreateChain_panics_iff_nil.2.2 (appendHandler []) [traceWrapper 1 2, Middleware.pure id] []
     (by
      intro m hm
      simp only [List.mem_cons, List.mem_singleton, List.not_mem_nil, or_false] at hm
      rcases hm with rfl | rfl
      · exact pure_total _
      · exact pure_total _)⟩

/-- C3: with wrapper A registered first and wrapper B second, each appending its
`before` marker, calling its inner handler and appending its `after` marker once that
call has returned, one `ServeHTTP` call after `CreateChain` on a trace `t` runs the base
handler `H` on `t ++ [Ab, Bb]` and appends `[Ba, Aa]` to the trace `H` leaves; for a base
handler that appends the markers `hs`, the trace is `t ++ [Ab, Bb] ++ hs ++ [Ba, Aa]`. -/
theorem ServeHTTP_trace_order {μ W R : Type} (H : http.Handler (List μ) W R)
    (Ab Aa Bb Ba : μ) (w : W) (r : R) (s t t1 : List μ)
    (hH : H.ServeHTTP w r (t ++ [Ab, Bb]) = (none, t1)) :
    (Engine.CreateChain (build (some H) [traceWrapper Ab Aa, traceWrapper Bb Ba]) s).1 = none ∧
    Engine.ServeHTTP
        (Engine.CreateChain (build (some H) [traceWrapper Ab Aa, traceWrapper Bb Ba]) s).2.1
        w r t = (none, t1 ++ [Ba, Aa]) ∧
    ∀ hs : List μ,
      Engine.ServeHTTP
          (Engine.CreateChain
            (build (some (appendHandler hs)) [traceWrapper Ab Aa, traceWrapper Bb Ba]) s).2.1
          w r t = (none, t ++ [Ab, Bb] ++ hs ++ [Ba, Aa]) := by
  refine ⟨rfl, ?_, fun hs => ?_⟩
  swap
  · show (none, t ++ [Ab] ++ [Bb] ++ hs ++ [Ba] ++ [Aa]) = (none, t ++ [Ab, Bb] ++ hs ++ [Ba, Aa])
    simp
  have hH1 : H.ServeHTTP w r (t ++ [Ab] ++ [Bb]) = (none, t1) := by
    rw [List.append_assoc]
    exact hH
  show (match (match H.ServeHTTP w r (t ++ [Ab] ++ [Bb]) with
        | (some f, t2) => (some f, t2)
        | (none, t2) => (none, t2 ++ [Ba])) with
      | (some f, t2) => (some f, t2)
      | (none, t2) => (none, t2 ++ [Aa])) = (none, t1 ++ [Ba, Aa])
  rw [hH1]
  simp

/-- Witness for C3: markers 1 (A before), 2 (A after), 3 (B before), 4 (B after) and a
base handler that appends 7, on an empty trace. -/
theorem ServeHTTP_trace_order_witness :
    (Engine.CreateChain
        (build (some (appendHandler [7] : http.Handler (List Nat) Unit Unit))
          [traceWrapper 1 2, traceWrapper 3 4]) []).1 = none ∧
    Engine.ServeHTTP
        (Engine.CreateChain
          (build (some (appendHandler [7] : http.Handler (List Nat) Unit Unit))
            [traceWrapper 1 2, traceWrapper 3 4]) []).2.1 () () [] = (none, [1, 3, 7, 4, 2]) :=
  ⟨(ServeHTTP_trace_order (appendHandler [7]) 1 2 3 4 () () [] [] [1, 3, 7] rfl).1,
   (ServeHTTP_trace_order (appendHandler [7]) 1 2 3 4 () () [] [] [1, 3, 7] rfl).2.1⟩

/-- C4: for a non-nil base handler `H`, `CreateChain` on an engine with no wrappers
returns and leaves the engine as it was, with `Handler` equal to `H`, so dispatch goes
to `H` itself. -/
theorem CreateChain_no_wrappers {σ W R : Type} (H : http.Handler σ W R) (s : σ) :
    Engine.CreateChain { Handler := some H, Middlewares := [] } s =
      (none, { Handler := some H, Middlewares := [] }, s) ∧
    Engine.CreateChain (NewEngine (some H)) s = (none, NewEngine (some H), s) ∧
    (Engine.CreateChain (NewEngine (some H)) s).2.1.Handler = some H ∧
    ∀ (w : W) (r : R) (t : σ),
      Engine.ServeHTTP (Engine.CreateChain (NewEngine (some H)) s).2.1 w r t =
        H.ServeHTTP w r t :=
  ⟨rfl, rfl, rfl, fun _ _ _ => rfl⟩

/-! ## Dispatch -/

/-- C5: on an engine whose `Handler` is the non-nil `h`, `ServeHTTP(w, r)` ends with the
panic and the world of `h.ServeHTTP(w, r)` for the same `w` and `r`; for `NewEngine(h)`
with no wrapper registered this holds before and after `CreateChain`. -/
theorem ServeHTTP_forwards {σ W R : Type} (h : http.Handler σ W R)
    (ms : List (Middleware σ W R)) (w : W) (r : R) (s : σ) :
    Engine.ServeHTTP { Handler := some h, Middlewares := ms } w r s = h.ServeHTTP w r s ∧
    Engine.ServeHTTP (NewEngine (some h)) w r s = h.ServeHTTP w r s ∧
    ∀ s0 : σ,
      Engine.ServeHTTP (Engine.CreateChain (NewEngine (some h)) s0).2.1 w r s =
        h.ServeHTTP w r s :=
  ⟨rfl, rfl, fun _ => rfl⟩

/-! ## Registration -/

/-- C6: `Use(m)` turns `Middlewares` into the old list followed by `m`: the length grows
by one, the old list is the initial segment of the new one, `m` is the last element, a
wrapper registered twice is there twice, and `Handler` is left as it was, also when it
is the result of an earlier `CreateChain`. -/
theorem Use_appends {σ W R : Type} (e : Engine σ W R) (m : Middleware σ W R) :
    (e.Use m).Middlewares = e.Middlewares ++ [m] ∧
    (e.Use m).Middlewares.length = e.Middlewares.length + 1 ∧
    (e.Use m).Middlewares.take e.Middlewares.length = e.Middlewares ∧
    (e.Use m).Middlewares[e.Middlewares.length]? = some m ∧
    (e.Use m).Middlewares.getLast? = some m ∧
    ((e.Use m).Use m).Middlewares = e.Middlewares ++ [m, m] ∧
    (e.Use m).Handler = e.Handler ∧
    ∀ (e0 : Engine σ W R) (s : σ),
      ((Engine.CreateChain e0 s).2.1.Use m).Handler = (Engine.CreateChain e0 s).2.1.Handler := by
  refine ⟨rfl, ?_, ?_, ?_, ?_, ?_, rfl, fun _ _ => rfl⟩
  · simp [Engine.Use]
  · simp [Engine.Use]
  · simp [Engine.Use]
  · simp [Engine.Use]
  · simp [Engine.Use]

/-- C7: `NewEngine(H)` is the engine whose `Handler` is `H` (nil or not) and whose
`Middlewares` list is empty. -/
theorem NewEngine_fields {σ W R : Type} (H : Option (http.Handler σ W R)) :
    (NewEngine H).Handler = H ∧ (NewEngine H).Middlewares = [] ∧
    (NewEngine H).Middlewares.length = 0 :=
  ⟨rfl, rfl, rfl⟩

/-- C8: after any sequence of `Use` calls on `NewEngine(H)` and no `CreateChain`,
`ServeHTTP` ends as `H.ServeHTTP` does, whatever the registered wrappers would do when
called; and `Use` calls on any engine, in particular one on which `CreateChain` has run,
leave the outcome of `ServeHTTP` as it was. -/
theorem ServeHTTP_ignores_Use {σ W R : Type} (H : http.Handler σ W R)
    (ws : List (Middleware σ W R)) (w : W) (r : R) (s : σ) :
    Engine.ServeHTTP (build (some H) ws) w r s = H.ServeHTTP w r s ∧
    (∀ e : Engine σ W R,
      Engine.ServeHTTP (ws.foldl Engine.Use e) w r s = Engine.ServeHTTP e w r s) ∧
    ∀ (e0 : Engine σ W R) (s0 : σ),
      Engine.ServeHTTP (ws.foldl Engine.Use (Engine.CreateChain e0 s0).2.1) w r s =
        Engine.ServeHTTP (Engine.CreateChain e0 s0).2.1 w r s := by
  refine ⟨?_, fun e => ?_, fun e0 s0 => ?_⟩
  · rw [build_eq]
    rfl
  · rw [foldl_Use]
    rfl
  · rw [foldl_Use]
    rfl

/-! ## Nesting order -/

/-- C9: for a non-nil base handler `H` and a wrapper list `w0 :: rest`, when `CreateChain`
over `rest` returns with handler `e1.Handler` and `w0` applied to that handler returns
`h2`, then `CreateChain` over `w0 :: rest` returns with `Handler` equal to `h2`: the
wrapper at index 0 is applied last and is the outermost layer. -/
theorem CreateChain_cons {σ W R : Type} (H : http.Handler σ W R) (w0 : Middleware σ W R)
    (rest : List (Middleware σ W R)) (s s1 s2 : σ) (e1 : Engine σ W R)
    (h2 : Option (http.Handler σ W R))
    (hrest : Engine.CreateChain (build (some H) rest) s = (none, e1, s1))
    (hw0 : Middleware.call w0 e1.Handler s1 = (Except.ok h2, s2)) :
    Engine.CreateChain (build (some H) (w0 :: rest)) s =
      (none, { Handler := h2, Middlewares := w0 :: rest }, s2) := by
  rw [build_eq] at hrest ⊢
  obtain ⟨hn, _⟩ := nest_of_CreateChain H rest s s1 e1 hrest
  apply CreateChain_ok
  simp only [nest, hn]
  exact hw0

/-- Witness for C9: two trace wrappers over a base handler that appends 7. -/
theorem CreateChain_cons_witness :
    Engine.CreateChain
        (build (some (appendHandler [7] : http.Handler (List Nat) Unit Unit))
          (traceWrapper 1 2 :: [traceWrapper 3 4])) [] =
      (none,
        { Handler := some (traceHandler 1 2 (some (traceHandler 3 4 (some (appendHandler [7]))))),
          Middlewares := traceWrapper 1 2 :: [traceWrapper 3 4] }, []) :=
  CreateChain_cons (appendHandler [7]) (traceWrapper 1 2) [traceWrapper 3 4] [] [] []
    { Handler := some (traceHandler 3 4 (some (appendHandler [7]))),
      Middlewares := [traceWrapper 3 4] }
    (some (traceHandler 1 2 (some (traceHandler 3 4 (some (appendHandler [7])))))) rfl rfl

/-- Counterexample to C10 as stated: with the wrapper list `[traceWrapper 1 2]` followed
by a wrapper that returns the nil handler, `CreateChain` over the base handler returns
with a non-nil `Handler`, while `CreateChain` on the engine whose base is the nil handler
that wrapper returned panics and leaves `Handler` nil. -/
theorem CreateChain_concat_counterexample :
    (Engine.CreateChain
        (build (some (appendHandler [7] : http.Handler (List Nat) Unit Unit))
          ([traceWrapper 1 2] ++ [Middleware.pure returnNil])) []).1 = none ∧
    (Engine.CreateChain
        (build (returnNil (some (appendHandler [7] : http.Handler (List Nat) Unit Unit)))
          [traceWrapper 1 2]) []).1 = some Fault.baseHandlerNil ∧
    (Engine.CreateChain
        (build (some (appendHandler [7] : http.Handler (List Nat) Unit Unit))
          ([traceWrapper 1 2] ++ [Middleware.pure returnNil])) []).2.1.Handler ≠
      (Engine.CreateChain
        (build (returnNil (some (appendHandler [7] : http.Handler (List Nat) Unit Unit)))
          [traceWrapper 1 2]) []).2.1.Handler :=
  ⟨rfl, rfl, fun h => Option.noConfusion h⟩

/-- C10 (amended): for a non-nil base handler `H`, a wrapper list `ws` and a wrapper `w`
whose call on `H` returns a non-nil handler `H1`, `CreateChain` over `H` with the wrappers
`ws` followed by `w` ends with the same panic (or none), the same `Handler` and the same
world as `CreateChain` over the base `H1` with the wrappers `ws`: the last-registered
wrapper is applied directly to the base handler and every other wrapper outside it. -/
theorem CreateChain_concat {σ W R : Type} (H H1 : http.Handler σ W R)
    (ws : List (Middleware σ W R)) (w : Middleware σ W R) (s s1 : σ)
    (hw : Middleware.call w (some H) s = (Except.ok (some H1), s1)) :
    (Engine.CreateChain (build (some H) (ws ++ [w])) s).1 =
      (Engine.CreateChain (build (some H1) ws) s1).1 ∧
    (Engine.CreateChain (build (some H) (ws ++ [w])) s).2.1.Handler =
      (Engine.CreateChain (build (some H1) ws) s1).2.1.Handler ∧
    (Engine.CreateChain (build (some H) (ws ++ [w])) s).2.2 =
      (Engine.CreateChain (build (some H1) ws) s1).2.2 := by
  rw [build_eq, build_eq]
  have hx : (ws ++ [w])[ws.length]? = some w := by simp
  simp only [Engine.CreateChain, List.length_append, List.length_singleton,
    Engine.CreateChain.loop, hx, hw]
  exact loop_frame ws [w] ws.length (Nat.le_refl _) (some H1) s1

/-- Witness for C10 (amended): one trace wrapper followed by a second one, whose call on
the base handler returns the non-nil handler `traceHandler 3 4 (some (appendHandler [7]))`. -/
theorem CreateChain_concat_witness :
    (Engine.CreateChain
        (build (some (appendHandler [7] : http.Handler (List Nat) Unit Unit))
          ([traceWrapper 1 2] ++ [traceWrapper 3 4])) []).2.1.Handler =
      (Engine.CreateChain
        (build (some (traceHandler 3 4 (some (appendHandler [7])))) [traceWrapper 1 2])
          []).2.1.Handler :=
  (CreateChain_concat (appendHandler [7]) (traceHandler 3 4 (some (appendHandler [7])))
    [traceWrapper 1 2] (traceWrapper 3 4) [] [] rfl).2.1

/-! ## Repeated composition -/

theorem nest_ne_none {σ W R : Type} (H : http.Handler σ W R) (ws : List (Middleware σ W R))
    (hnn : ∀ w ∈ ws, Middleware.NeverNil w) (s s1 : σ) (h1 : Option (http.Handler σ W R))
    (hn : nest ws (some H) s = (Except.ok h1, s1)) : h1 ≠ none := by
  cases ws with
  | nil =>
    simp only [nest, Prod.mk.injEq, Except.ok.injEq] at hn
    rw [← hn.1]
    exact Option.some_ne_none H
  | cons w ws =>
    simp only [nest] at hn
    rcases hr : nest ws (some H) s with ⟨f | h0, s0⟩
    · rw [hr] at hn
      simp at hn
    · rw [hr] at hn
      simp only at hn
      exact hnn w (List.mem_cons_self _ _) h0 s0 h1 (by rw [hn])

/-- C11: for a non-nil base handler `H` and wrappers that never return nil, with
`F(x) = w1(w2(...wn(x)...))` evaluated by hand: when `F(H)` returns `h1` and `F(h1)`
returns `h2`, the first `CreateChain` returns with `Handler = h1` and a second
`CreateChain` right after it returns with `Handler = h2 = F(F(H))`, so the two results
differ whenever `h2` differs from `h1`. With one wrapper that appends a marker `m` before
calling its inner handler, a request shows `m` once after one `CreateChain` and twice
after two. -/
theorem CreateChain_twice {σ W R μ : Type} (H : http.Handler σ W R)
    (ws : List (Middleware σ W R)) (hnn : ∀ w ∈ ws, Middleware.NeverNil w)
    (s s1 s2 : σ) (h1 h2 : Option (http.Handler σ W R))
    (hF1 : nest ws (some H) s = (Except.ok h1, s1))
    (hF2 : nest ws h1 s1 = (Except.ok h2, s2)) :
    Engine.CreateChain (build (some H) ws) s =
      (none, { Handler := h1, Middlewares := ws }, s1) ∧
    Engine.CreateChain (Engine.CreateChain (build (some H) ws) s).2.1
        (Engine.CreateChain (build (some H) ws) s).2.2 =
      (none, { Handler := h2, Middlewares := ws }, s2) ∧
    (h2 ≠ h1 →
      (Engine.CreateChain (Engine.CreateChain (build (some H) ws) s).2.1
          (Engine.CreateChain (build (some H) ws) s).2.2).2.1.Handler ≠
        (Engine.CreateChain (build (some H) ws) s).2.1.Handler) ∧
    ∀ (m : μ) (hs : List μ) (w : W) (r : R) (c t : List μ),
      Engine.ServeHTTP
          (Engine.CreateChain
            (build (some (appendHandler hs : http.Handler (List μ) W R))
              [emitWrapper m]) c).2.1 w r t =
        (none, t ++ [m] ++ hs) ∧
      Engine.ServeHTTP
          (Engine.CreateChain
            (Engine.CreateChain
              (build (some (appendHandler hs : http.Handler (List μ) W R))
                [emitWrapper m]) c).2.1
            (Engine.CreateChain
              (build (some (appendHandler hs : http.Handler (List μ) W R))
                [emitWrapper m]) c).2.2).2.1
          w r t =
        (none, t ++ [m, m] ++ hs) := by
  have hne := nest_ne_none H ws hnn s s1 h1 hF1
  obtain ⟨H1, rfl⟩ := Option.ne_none_iff_exists'.mp hne
  have hc1 := CreateChain_ok H ws s s1 (some H1) hF1
  have hc2 := CreateChain_ok H1 ws s1 s2 h2 hF2
  rw [build_eq, hc1]
  refine ⟨rfl, hc2, ?_, fun m hs w r c t => ⟨rfl, ?_⟩⟩
  · intro hd
    show (Engine.CreateChain { Handler := some H1, Middlewares := ws } s1).2.1.Handler ≠ some H1
    rw [hc2]
    exact hd
  · show (none, t ++ [m] ++ [m] ++ hs) = (none, t ++ [m, m] ++ hs)
    simp

/-- Witness for C11: one wrapper that appends the marker 5, over a base handler that
appends 7; after two `CreateChain` calls the handler is the wrapper applied twice, and a
request on the empty trace leaves `[5, 5, 7]`. -/
theorem CreateChain_twice_witness :
    Engine.CreateChain
        (Engine.CreateChain
          (build (some (appendHandler [7] : http.Handler (List Nat) Unit Unit))
            [emitWrapper 5]) []).2.1
        (Engine.CreateChain
          (build (some (appendHandler [7] : http.Handler (List Nat) Unit Unit))
            [emitWrapper 5]) []).2.2 =
      (none,
        { Handler := some (emitHandler 5 (some (emitHandler 5 (some (appendHandler [7]))))),
          Middlewares := [emitWrapper 5] }, []) ∧
    Engine.ServeHTTP
        (Engine.CreateChain
          (Engine.CreateChain
            (build (some (appendHandler [7] : http.Handler (List Nat) Unit Unit))
              [emitWrapper 5]) []).2.1
          (Engine.CreateChain
            (build (some (appendHandler [7] : http.Handler (List Nat) Unit Unit))
              [emitWrapper 5]) []).2.2).2.1 () () [] = (none, [5, 5, 7]) :=
  have hw : ∀ w ∈ [(emitWrapper 5 : Middleware (List Nat) Unit Unit)],
      Middleware.NeverNil w := by
    intro w hw h s h1 heq
    simp only [List.mem_singleton] at hw
    subst hw
    simp only [emitWrapper, Middleware.pure, Middleware.call, Except.ok.injEq] at heq
    rw [← heq]
    exact Option.some_ne_none _
  ⟨(CreateChain_twice (μ := Nat) (appendHandler [7]) [emitWrapper 5] hw [] [] []
      (some (emitHandler 5 (some (appendHandler [7]))))
      (some (emitHandler 5 (some (emitHandler 5 (some (appendHandler [7])))))) rfl rfl).2.1,
   rfl⟩

/-! ## Frame of composition -/

/-- C15: for every engine state, whether `CreateChain` returns or panics, the engine it
leaves has the `Middlewares` list it started with (same elements, same order, same
length): only the `Handler` field can differ. -/
theorem CreateChain_Middlewares {σ W R : Type} (e : Engine σ W R) (s : σ) :
    (Engine.CreateChain e s).2.1.Middlewares = e.Middlewares ∧
    (Engine.CreateChain e s).2.1.Middlewares.length = e.Middlewares.length ∧
    (Engine.CreateChain e s).2.1 =
      { e with Handler := (Engine.CreateChain e s).2.1.Handler } := by
  have h : (Engine.CreateChain e s).2.1.Middlewares = e.Middlewares := by
    unfold Engine.CreateChain
    cases e.Handler with
    | none => rfl
    | some H => exact loop_Middlewares _ e s
  refine ⟨h, by rw [h], ?_⟩
  rcases hr : (Engine.CreateChain e s).2.1 with ⟨h0, ms⟩
  rw [hr] at h
  simp only at h
  rw [h]

/-! ## Failure modes -/

theorem loop_fault_call {σ W R : Type} (ms : List (Middleware σ W R)) :
    ∀ (n : Nat), n ≤ ms.length → ∀ (h : Option (http.Handler σ W R)) (s : σ) (f : Fault),
      (Engine.CreateChain.loop n { Handler := h, Middlewares := ms } s).1 = some f →
      ∃ (i : Nat) (m : Middleware σ W R) (hi : Option (http.Handler σ W R)) (si : σ),
        i < n ∧ ms[i]? = some m ∧
        nest ((ms.take n).drop (i + 1)) h s = (Except.ok hi, si) ∧
        (Middleware.call m hi si).1 = Except.error f ∧
        Engine.CreateChain.loop n { Handler := h, Middlewares := ms } s =
          (some f, { Handler := hi, Middlewares := ms }, (Middleware.call m hi si).2) := by
  intro n
  induction n with
  | zero =>
    intro _ h s f hf
    simp [Engine.CreateChain.loop] at hf
  | succ n ih =>
    intro hlen h s f hf
    have hlt : n < ms.length := hlen
    have htake : ms.take (n + 1) = ms.take n ++ [ms[n]] := by
      rw [← List.take_concat_get ms n hlt, List.concat_eq_append]
    simp only [Engine.CreateChain.loop, List.getElem?_eq_getElem hlt] at hf ⊢
    rcases hm : Middleware.call ms[n] h s with ⟨g | h2, s2⟩
    · rw [hm] at hf
      simp only [Option.some.injEq] at hf
      subst hf
      refine ⟨n, ms[n], h, s, Nat.lt_succ_self n, List.getElem?_eq_getElem hlt, ?_,
        by rw [hm], by rw [hm]⟩
      have hd : (ms.take (n + 1)).drop (n + 1) = [] :=
        List.drop_eq_nil_of_le (by simp)
      rw [hd]
      rfl
    · rw [hm] at hf
      simp only at hf
      obtain ⟨i, m, hi, si, hin, hmi, hnest, hcall, hres⟩ :=
        ih (Nat.le_of_lt hlt) h2 s2 f hf
      refine ⟨i, m, hi, si, Nat.lt_succ_of_lt hin, hmi, ?_, hcall, hres⟩
      have hd : (ms.take (n + 1)).drop (i + 1) = (ms.take n).drop (i + 1) ++ [ms[n]] := by
        rw [htake, List.drop_append_of_le_length]
        simp only [List.length_take]
        omega
      rw [hd, nest_concat, hm]
      exact hnest

/-- Counterexample to C12 as stated: the engine `NewEngine(nil)` has no handler and no
wrapper, and `ServeHTTP` on it fails, with a nil dereference raised at the engine's own
call `e.Handler.ServeHTTP(w, r)`; and `CreateChain` on `NewEngine(H)` after `Use(nil)`,
whose `Handler` is non-nil, fails with a nil dereference raised at the engine's own call
`e.Middlewares[i](e.Handler)`, the engine and the world being left as they were. -/
theorem ServeHTTP_nil_counterexample :
    (NewEngine (none : Option (http.Handler Unit Unit Unit))).Handler = none ∧
    (NewEngine (none : Option (http.Handler Unit Unit Unit))).Middlewares = [] ∧
    Engine.ServeHTTP (NewEngine (none : Option (http.Handler Unit Unit Unit))) () () () =
      (some Fault.nilDereference, ()) ∧
    Engine.CreateChain
        ((NewEngine (some (appendHandler [7] : http.Handler (List Nat) Unit Unit))).Use
          Middleware.nil) [] =
      (some Fault.nilDereference,
        (NewEngine (some (appendHandler [7] : http.Handler (List Nat) Unit Unit))).Use
          Middleware.nil, []) :=
  ⟨rfl, rfl, rfl, rfl⟩

/-- C12 (amended): `NewEngine` and `Use` return an engine for every input. The engine
fails on its own account in three cases: `CreateChain` called with a nil `Handler` (its
explicit panic), `CreateChain` reaching a registered nil func (a nil dereference at its
call `e.Middlewares[i](e.Handler)`), and `ServeHTTP` on an engine whose `Handler` is nil
(a nil dereference at its call `e.Handler.ServeHTTP(w, r)`). Otherwise `CreateChain`
fails only with the panic of the call it made to a registered wrapper: the wrappers behind
some index `i` were called in order and returned the handler `hi` and the world `si`, and
the code of the wrapper at index `i`, called on `hi` in `si`, panicked. `ServeHTTP` on an
engine with a non-nil `Handler` has the outcome of that handler, so it fails only when
the handler fails, with the same panic. -/
theorem failure_modes {σ W R : Type} :
    (∀ h : Option (http.Handler σ W R), NewEngine h = { Handler := h, Middlewares := [] }) ∧
    (∀ (e : Engine σ W R) (m : Middleware σ W R),
      e.Use m = { Handler := e.Handler, Middlewares := e.Middlewares ++ [m] }) ∧
    (∀ (ms : List (Middleware σ W R)) (s : σ),
      Engine.CreateChain { Handler := none, Middlewares := ms } s =
        (some Fault.baseHandlerNil, { Handler := none, Middlewares := ms }, s)) ∧
    (∀ (e : Engine σ W R) (s : σ) (f : Fault), (Engine.CreateChain e s).1 = some f →
      (e.Handler = none ∧ f = Fault.baseHandlerNil) ∨
      (e.Handler ≠ none ∧
        ∃ (i : Nat) (m : Middleware σ W R) (hi : Option (http.Handler σ W R)) (si : σ),
          e.Middlewares[i]? = some m ∧
          nest (e.Middlewares.drop (i + 1)) e.Handler s = (Except.ok hi, si) ∧
          Engine.CreateChain e s =
            (some f, { Handler := hi, Middlewares := e.Middlewares },
              (Middleware.call m hi si).2) ∧
          ((m = Middleware.nil ∧ f = Fault.nilDereference) ∨
            ∃ g, m = some g ∧ (g hi si).1 = Except.error f))) ∧
    (∀ (H : http.Handler σ W R) (ms : List (Middleware σ W R)) (s : σ),
      Engine.CreateChain { Handler := some H, Middlewares := ms ++ [Middleware.nil] } s =
        (some Fault.nilDereference,
          { Handler := some H, Middlewares := ms ++ [Middleware.nil] }, s)) ∧
    (∀ (h : http.Handler σ W R) (ms : List (Middleware σ W R)) (w : W) (r : R) (s : σ),
      Engine.ServeHTTP { Handler := some h, Middlewares := ms } w r s = h.ServeHTTP w r s) ∧
    (∀ (h : http.Handler σ W R) (ms : List (Middleware σ W R)) (w : W) (r : R) (s : σ)
        (f : Fault),
      (Engine.ServeHTTP { Handler := some h, Middlewares := ms } w r s).1 = some f →
      (h.ServeHTTP w r s).1 = some f) ∧
    (∀ (ms : List (Middleware σ W R)) (w : W) (r : R) (s : σ),
      Engine.ServeHTTP { Handler := none, Middlewares := ms } w r s =
        (some Fault.nilDereference, s)) := by
  refine ⟨fun _ => rfl, fun _ _ => rfl, fun _ _ => rfl, ?_, ?_, fun _ _ _ _ _ => rfl,
    fun _ _ _ _ _ _ hf => hf, fun _ _ _ _ => rfl⟩
  · intro e s f hf
    obtain ⟨h, ms⟩ := e
    cases h with
    | none =>
      left
      simp only [Engine.CreateChain, Option.some.injEq] at hf
      exact ⟨rfl, hf.symm⟩
    | some H =>
      right
      refine ⟨Option.some_ne_none H, ?_⟩
      obtain ⟨i, m, hi, si, _, hmi, hnest, hcall, hres⟩ :=
        loop_fault_call ms ms.length (Nat.le_refl _) (some H) s f hf
      rw [List.take_length] at hnest
      refine ⟨i, m, hi, si, hmi, hnest, hres, ?_⟩
      cases m with
      | none =>
        left
        simp only [Middleware.call, Except.error.injEq] at hcall
        exact ⟨rfl, hcall.symm⟩
      | some g => exact Or.inr ⟨g, rfl, hcall⟩
  · intro H ms s
    have hx : (ms ++ [(Middleware.nil : Middleware σ W R)])[ms.length]? =
        some Middleware.nil := by simp
    simp only [Engine.CreateChain, List.length_append, List.length_singleton,
      Engine.CreateChain.loop, hx]
    rfl

/-- Witness for C12 (amended): `CreateChain` with a non-nil handler, a trace wrapper and,
registered last, a wrapper whose code panics, fails with that wrapper's panic. -/
theorem failure_modes_witness :
    ((some (appendHandler [7]) : Option (http.Handler (List Nat) Unit Unit)) = none ∧
        Fault.raised "boom" = Fault.baseHandlerNil) ∨
      ((some (appendHandler [7]) : Option (http.Handler (List Nat) Unit Unit)) ≠ none ∧
        ∃ (i : Nat) (m : Middleware (List Nat) Unit Unit)
          (hi : Option (http.Handler (List Nat) Unit Unit)) (si : List Nat),
          [traceWrapper 1 2, panicWrapper "boom"][i]? = some m ∧
          nest (([traceWrapper 1 2, panicWrapper "boom"] :
              List (Middleware (List Nat) Unit Unit)).drop (i + 1))
            (some (appendHandler [7])) [] = (Except.ok hi, si) ∧
          Engine.CreateChain
              { Handler := some (appendHandler [7]),
                Middlewares := [traceWrapper 1 2, panicWrapper "boom"] } [] =
            (some (Fault.raised "boom"),
              { Handler := hi, Middlewares := [traceWrapper 1 2, panicWrapper "boom"] },
              (Middleware.call m hi si).2) ∧
          ((m = Middleware.nil ∧ Fault.raised "boom" = Fault.nilDereference) ∨
            ∃ g, m = some g ∧ (g hi si).1 = Except.error (Fault.raised "boom"))) :=
  failure_modes.2.2.2.1
    { Handler := some (appendHandler [7]),
      Middlewares := [traceWrapper 1 2, panicWrapper "boom"] } []
    (Fault.raised "boom") rfl

/-! ## The header scenario -/

/-- C13: in the header scenario (base handler writing status 200 and body "OK", wrapper A
setting header X to 1 registered first, wrapper B setting header Y to 2 registered
second), `CreateChain` returns and dispatching any request to a writer with the calls `t`
made so far adds the calls set X, set Y, write status 200, write "OK", in that order; on
a fresh writer the response has status 200, body "OK", header X = 1 and header Y = 2,
and X is set before Y. -/
theorem header_scenario {W R : Type} (w : W) (r : R) (c t : List WriterCall) :
    (Engine.CreateChain (scenarioEngine : Engine (List WriterCall) W R) c).1 = none ∧
    Engine.ServeHTTP (Engine.CreateChain (scenarioEngine : Engine (List WriterCall) W R) c).2.1
        w r t =
      (none, t ++ [WriterCall.setHeader "X" "1", WriterCall.setHeader "Y" "2",
        WriterCall.writeHeader 200, WriterCall.write "OK"]) ∧
    statusOf (Engine.ServeHTTP
      (Engine.CreateChain (scenarioEngine : Engine (List WriterCall) W R) c).2.1 w r []).2 =
        some 200 ∧
    bodyOf (Engine.ServeHTTP
      (Engine.CreateChain (scenarioEngine : Engine (List WriterCall) W R) c).2.1 w r []).2 =
        "OK" ∧
    headerOf "X" none (Engine.ServeHTTP
      (Engine.CreateChain (scenarioEngine : Engine (List WriterCall) W R) c).2.1 w r []).2 =
        some "1" ∧
    headerOf "Y" none (Engine.ServeHTTP
      (Engine.CreateChain (scenarioEngine : Engine (List WriterCall) W R) c).2.1 w r []).2 =
        some "2" ∧
    List.indexOf (WriterCall.setHeader "X" "1") (Engine.ServeHTTP
      (Engine.CreateChain (scenarioEngine : Engine (List WriterCall) W R) c).2.1 w r []).2 <
      List.indexOf (WriterCall.setHeader "Y" "2") (Engine.ServeHTTP
        (Engine.CreateChain (scenarioEngine : Engine (List WriterCall) W R) c).2.1 w r []).2 := by
  have hlog : (Engine.ServeHTTP
      (Engine.CreateChain (scenarioEngine : Engine (List WriterCall) W R) c).2.1 w r []).2 =
      [WriterCall.setHeader "X" "1", WriterCall.setHeader "Y" "2",
        WriterCall.writeHeader 200, WriterCall.write "OK"] := rfl
  rw [hlog]
  refine ⟨rfl, ?_, by decide, by decide, by decide, by decide, by decide⟩
  show (none, t ++ [WriterCall.setHeader "X" "1"] ++ [WriterCall.setHeader "Y" "2"] ++
      [WriterCall.writeHeader 200, WriterCall.write "OK"]) = _
  simp

/-! ## Invocation order -/

theorem nest_logAll {α W R : Type}
    (obs : Option (http.Handler (List (Nat × α)) W R) → α)
    (fs : List (Option (http.Handler (List (Nat × α)) W R) →
      Option (http.Handler (List (Nat × α)) W R))) :
    ∀ (k : Nat) (h : Option (http.Handler (List (Nat × α)) W R)) (log : List (Nat × α)),
      nest (logAll obs k fs) h log =
        (Except.ok (fs.foldr (fun f a => f a) h), log ++ expectedCalls obs k fs h) := by
  induction fs with
  | nil => intro k h log; simp [logAll, nest, expectedCalls]
  | cons f fs ih =>
    intro k h log
    simp [logAll, nest, expectedCalls, ih, logCall, Middleware.call]

theorem expectedCalls_eq {α W R : Type}
    (obs : Option (http.Handler (List (Nat × α)) W R) → α)
    (fs : List (Option (http.Handler (List (Nat × α)) W R) →
      Option (http.Handler (List (Nat × α)) W R))) :
    ∀ (k : Nat) (h : Option (http.Handler (List (Nat × α)) W R)),
      expectedCalls obs k fs h =
        (List.range fs.length).reverse.map
          (fun i => (i + k, obs ((fs.drop (i + 1)).foldr (fun f a => f a) h))) := by
  induction fs with
  | nil => intro k h; simp [expectedCalls]
  | cons f fs ih =>
    intro k h
    simp only [expectedCalls, ih, List.length_cons, List.range_succ_eq_map, List.reverse_cons,
      List.map_append, List.map_cons, List.map_nil, List.map_reverse, List.map_map,
      List.drop_succ_cons, List.drop_zero, Nat.zero_add]
    congr 2
    apply List.map_congr_left
    intro i _
    simp only [Function.comp, Nat.succ_eq_add_one]
    congr 1
    omega

/-- C14: with every registered wrapper instrumented to log its index and an observation
of the handler it receives, one `CreateChain` call with a non-nil `Handler` on `n`
wrappers adds to the log exactly `n` calls, those of the indices `n-1, n-2, ..., 0` in
that order, the wrapper at index `i` receiving the handler built by the wrappers behind
it (the base handler for `i = n-1`); wrappers that return nil do not stop it, since the
nil check is not repeated; and with a nil `Handler` it panics with no call logged. -/
theorem CreateChain_calls {α W R : Type}
    (obs : Option (http.Handler (List (Nat × α)) W R) → α)
    (H : http.Handler (List (Nat × α)) W R)
    (fs : List (Option (http.Handler (List (Nat × α)) W R) →
      Option (http.Handler (List (Nat × α)) W R)))
    (log : List (Nat × α)) :
    Engine.CreateChain (build (some H) (logAll obs 0 fs)) log =
      (none,
        { Handler := fs.foldr (fun f a => f a) (some H), Middlewares := logAll obs 0 fs },
        log ++ (List.range fs.length).reverse.map
          (fun i => (i, obs ((fs.drop (i + 1)).foldr (fun f a => f a) (some H))))) ∧
    ((Engine.CreateChain (build (some H) (logAll obs 0 fs)) []).2.2.map Prod.fst =
      (List.range fs.length).reverse) ∧
    (Engine.CreateChain (build (some H) (logAll obs 0 fs)) []).2.2.length = fs.length ∧
    Engine.CreateChain (build none (logAll obs 0 fs)) log =
      (some Fault.baseHandlerNil, build none (logAll obs 0 fs), log) := by
  have hc : ∀ lg : List (Nat × α),
      Engine.CreateChain (build (some H) (logAll obs 0 fs)) lg =
      (none,
        { Handler := fs.foldr (fun f a => f a) (some H), Middlewares := logAll obs 0 fs },
        lg ++ (List.range fs.length).reverse.map
          (fun i => (i, obs ((fs.drop (i + 1)).foldr (fun f a => f a) (some H))))) := by
    intro lg
    rw [build_eq]
    have h := CreateChain_ok H (logAll obs 0 fs) lg _ _ (nest_logAll obs fs 0 (some H) lg)
    rw [h, expectedCalls_eq]
    simp
  refine ⟨hc log, ?_, ?_, ?_⟩
  · rw [hc []]
    simp only [List.nil_append, List.map_map]
    exact (List.map_congr_left (fun _ _ => rfl)).trans (List.map_id _)
  · rw [hc []]
    simp
  · rw [build_eq]
    rfl

end Middlengine
